import Mathlib

/-!
Shallow embedding of the TeachGPT document-embedding and retrieval pipeline
(`model_server/embedding/embed.py` together with the registry tables of
`model_server/database/database_models.py`).

Text is modelled as `List Char` (Python `str` slicing acts on code points, as
`List.take`/`List.drop` do, including the clamping behaviour of out-of-range
slices).  The relational registry, the chroma vector store, and the on-disk
document tree are modelled as explicit components of a `SysState`; the HTTP
layer, uuids, timestamps and the user id are opaque to every piece of logic in
the pipeline and are omitted from the records.
-/

namespace TeachGPT

/-- Python `s[-n:]`: the last `n` characters of `s` (all of `s` when it is
shorter than `n`; `Nat` subtraction clamps exactly like Python's slicing). -/
def lastN (n : Nat) (s : List Char) : List Char :=
  s.drop (s.length - n)

/-- The filename split performed in `Embedder.embed_file`'s `result_dict`:
`course_code = file.filename[:8]`, `document_name = file.filename[8:]`.
Returned as `(course_code, document_name)`. -/
def parseFilename (filename : List Char) : List Char × List Char :=
  (filename.take 8, filename.drop 8)

/-- One uploaded file, as seen by `embed_file`.  `pdfText` and `pptxText` are
oracles for the black-box extractors `pdf_extraction_alg` / `pptx_extraction_alg`;
`raises` records whether processing this file raises an exception inside the
per-file `try` block (the realistic raise sites are the two `await`ed
extractors, which run before any store is written). -/
structure UFile where
  filename : List Char
  pdfText : List Char
  pptxText : List Char
  raises : Bool
deriving DecidableEq, Repr

/-- Extension dispatch of `embed_file`: `file.filename[-4:] == ".pdf"` selects
the PDF extractor, else `file.filename[-5:] == ".pptx"` selects the PPTX
extractor, else the placeholder `""` is used. -/
def extractContent (f : UFile) : List Char :=
  if lastN 4 f.filename = ".pdf".toList then f.pdfText
  else if lastN 5 f.filename = ".pptx".toList then f.pptxText
  else []

/-- A `documents` row, restricted to the two columns the embedding pipeline
reads or filters on (`course_code`, `document_name`); `id`, `added_at` and
`user_id` are written but never consulted. -/
structure DocRecord where
  course_code : List Char
  document_name : List Char
deriving DecidableEq, Repr

/-- One chroma collection entry: chunk text, the `source`/`course_code`
metadata, and the `{course_code}-{filename}-{i}` id string. -/
structure VsEntry where
  text : List Char
  source : List Char
  course_code : List Char
  id : List Char
deriving DecidableEq, Repr

/-- The three persistent resources the pipeline touches: the relational
document registry, the chroma vector store, and the on-disk document tree
(a set of `(course_code, filename)` paths). -/
structure SysState where
  registry : List DocRecord
  store : List VsEntry
  disk : List (List Char × List Char)
deriving DecidableEq, Repr

/-- Modelled from the spec: the Text Chunker itself is langchain's
`RecursiveCharacterTextSplitter` (configured in `add_document` with
`chunk_size=800`, `chunk_overlap=200`, `length_function=len`), whose code is
not part of this repository.  Following §4.1's fallback behaviour — raw
character splitting into chunks of at most 800 characters with a 200-character
overlap — the splitter is modelled as a sliding window of width 800 and stride
`800 - 200 = 600`.  `fuel` is an upper bound on the recursion depth; the
wrapper `chunkText` supplies enough. -/
def chunkTextGo : Nat → List Char → List (List Char)
  | 0, t => [t]
  | fuel + 1, t =>
      if t.length ≤ 800 then [t]
      else t.take 800 :: chunkTextGo fuel (t.drop 600)

/-- Modelled from the spec: the chunker applied to one document's extracted
text (see `chunkTextGo`). -/
def chunkText (t : List Char) : List (List Char) :=
  chunkTextGo t.length t

/-- "Concatenating the chunks minus the overlaps": the first chunk, followed by
every later chunk with its 200-character leading overlap removed. -/
def reconstruct : List (List Char) → List Char
  | [] => []
  | c :: rest => c ++ (rest.map (List.drop 200)).flatten

/-- Two consecutive chunks overlap by the configured 200 characters: the
earlier chunk is a full 800-character window whose last 200 characters are the
first 200 characters of the later chunk (which has at least 200 characters, so
the shared run really is 200 characters long). -/
def chunkOverlap (a b : List Char) : Prop :=
  a.length = 800 ∧ 200 ≤ b.length ∧ a.drop 600 = b.take 200

/-- Result of a `POST /` batch: `ok n` models
`ExtractionResult(results=f"{n} files added to vectorstore.")`, `dupError`
models the structured `HTTPErrorResponse(detail="Embedding present")`. -/
inductive BatchResult where
  | ok (n : Nat) : BatchResult
  | dupError : BatchResult
deriving DecidableEq, Repr

/-- The `result_dict` built for each file in `embed_file`:
`{"filename": file.filename[8:], "course_code": file.filename[:8],
"content": <extraction result>}`. -/
structure Extracted where
  content : List Char
  filename : List Char
  course_code : List Char
deriving DecidableEq, Repr

/-- The `result_dict` of one uploaded file. -/
def extractedOf (f : UFile) : Extracted :=
  ⟨extractContent f, (parseFilename f.filename).2, (parseFilename f.filename).1⟩

/-- The chroma id string `f"{course_code}-{filename}-{i}"` built in
`add_document`. -/
def chunkId (course name : List Char) (i : Nat) : List Char :=
  course ++ ['-'] ++ name ++ ['-'] ++ Nat.toDigits 10 i

/-- The batch handed to `collection.add` by `add_document`: one entry per
chunk, each carrying the chunk text, the `source`/`course_code` metadata, and
the sequence-indexed id. -/
def chunkEntries (e : Extracted) : List VsEntry :=
  (chunkText e.content).enum.map fun p =>
    ⟨p.2, e.filename, e.course_code, chunkId e.course_code e.filename p.1⟩

/-- `Embedder.add_document`: chunk the content, append the chunk entries to
the chroma collection, then insert one `Document` row (course code and
document name; the uuid, timestamp and user id are opaque) and commit. -/
def add_document (e : Extracted) (st : SysState) : SysState :=
  { st with
    store := st.store ++ chunkEntries e,
    registry := st.registry ++ [⟨e.course_code, e.filename⟩] }

/-- The duplicate check of `embed_file`:
`db.query(Document).filter(course_code == ...).filter(document_name == ...)
.first() is not None`. -/
def dupCheck (course name : List Char) (registry : List DocRecord) : Bool :=
  registry.any fun r => r.course_code == course && r.document_name == name

/-- The per-file loop of `Embedder.embed_file`, carrying `len(result_list)` as
`count`.  A file whose processing raises inside the `try` block is caught,
logged and skipped (`raises` models an extraction failure, which happens
before any store is written); a detected duplicate makes the handler `return`
the structured error immediately, abandoning the remaining files; otherwise
`add_document` runs and the file counts as added. -/
def embedLoop : List UFile → SysState → Nat → BatchResult × SysState
  | [], st, count => (.ok count, st)
  | f :: rest, st, count =>
      if f.raises then embedLoop rest st count
      else
        if dupCheck (extractedOf f).course_code (extractedOf f).filename st.registry then
          (.dupError, st)
        else embedLoop rest (add_document (extractedOf f) st) (count + 1)

/-- `Embedder.embed_file` on a batch of uploads: run the per-file loop with an
empty `result_list` and report `len(result_list)` on normal completion. -/
def embed_file (files : List UFile) (st : SysState) : BatchResult × SysState :=
  embedLoop files st 0

/-- The nearest entry of a list under the distance `d` (chroma's top-1 result
for `n_results=1`, lower distance = more similar; ties resolved toward the
earlier candidate is irrelevant to every property proved here). -/
def nearestEntry (d : VsEntry → ℚ) : List VsEntry → Option VsEntry
  | [] => none
  | e :: rest =>
      match nearestEntry d rest with
      | none => some e
      | some b => if d e ≤ d b then some e else some b

/-- The entries visible to a query with `where={"course_code": course_id}`. -/
def scopeEntries (course_id : List Char) (store : List VsEntry) : List VsEntry :=
  store.filter fun e => e.course_code == course_id

/-- `Embedder.query`: chroma's
`collection.query(query_texts=[message], n_results=1, where=...)` is modelled
by the nearest scoped entry under the embedding-distance oracle `d`; distances
are modelled as rationals.  If a result exists and its distance is strictly
below `1.0`, return `(chunk text, source filename)`, else the no-match signal
`("", "")`.  The function is total: an empty scope yields `("", "")`, never an
error. -/
def query (d : List Char → VsEntry → ℚ) (message course_id : List Char)
    (store : List VsEntry) : List Char × List Char :=
  match nearestEntry (d message) (scopeEntries course_id store) with
  | none => ([], [])
  | some e => if d message e < 1 then (e.text, e.source) else ([], [])

/-- `Embedder.delete_document_from_vectorstore`:
`collection.delete(where={"source": doc_name})` — keep exactly the entries
whose `source` differs (deleting zero matches is not an error). -/
def delete_document_from_vectorstore (doc_name : List Char)
    (store : List VsEntry) : List VsEntry :=
  store.filter fun e => !(e.source == doc_name)

/-- `Embedder.delete_document`: inside one `try` block, delete the registry
rows matching the filename and commit, delete the vector-store entries whose
`source` matches the filename, then `os.remove` the file at
`documents/{course_code}/{filename}`.  The first two steps cannot raise in
this model; `os.remove` raises exactly when the path is absent, and the
`except` then returns the literal `"failed"` after the first two deletions
have already happened.  Otherwise the literal `"success"` is returned. -/
def delete_document (course_code filename : List Char) (st : SysState) :
    String × SysState :=
  let registry2 := st.registry.filter fun r => !(r.document_name == filename)
  let store2 := delete_document_from_vectorstore filename st.store
  if (course_code, filename) ∈ st.disk then
    ("success", ⟨registry2, store2, st.disk.erase (course_code, filename)⟩)
  else
    ("failed", ⟨registry2, store2, st.disk⟩)

end TeachGPT

namespace TeachGPT

/-- C3: `embed_file` parses every uploaded filename by the fixed-width
convention: the course code is the (at most) first 8 characters — exactly 8
whenever the filename is that long — and the document name is the remainder,
the characters from index 8 onward; the two parts re-concatenate to the
original filename. -/
theorem parseFilename_spec (fn : List Char) :
    (parseFilename fn).1 ++ (parseFilename fn).2 = fn ∧
    (parseFilename fn).1.length = min 8 fn.length ∧
    (parseFilename fn).2 = fn.drop 8 ∧
    (8 ≤ fn.length → (parseFilename fn).1.length = 8) := by
  refine ⟨List.take_append_drop 8 fn, ?_, rfl, ?_⟩
  · simp [parseFilename]
  · intro h
    simp [parseFilename]
    omega

theorem parseFilename_spec_witness :
    (8 ≤ ("CSCI101LNotes.pdf".toList).length → (parseFilename "CSCI101LNotes.pdf".toList).1.length = 8) ∧
    (parseFilename "CSCI101LNotes.pdf".toList).1 ++ (parseFilename "CSCI101LNotes.pdf".toList).2 = "CSCI101LNotes.pdf".toList :=
  ⟨(parseFilename_spec "CSCI101LNotes.pdf".toList).2.2.2,
   (parseFilename_spec "CSCI101LNotes.pdf".toList).1⟩

theorem chunkTextGo_mem_length (fuel : Nat) :
    ∀ t : List Char, t.length ≤ 600 * fuel + 800 →
      ∀ c ∈ chunkTextGo fuel t, c.length ≤ 800 := by
  induction fuel with
  | zero =>
      intro t ht c hc
      simp only [chunkTextGo, List.mem_singleton] at hc
      subst hc; omega
  | succ n ih =>
      intro t ht c hc
      by_cases h : t.length ≤ 800
      · simp only [chunkTextGo, if_pos h, List.mem_singleton] at hc
        subst hc; exact h
      · simp only [chunkTextGo, if_neg h, List.mem_cons] at hc
        rcases hc with rfl | hc
        · simp
        · exact ih (t.drop 600) (by simp; omega) c hc

theorem chunkTextGo_head (fuel : Nat) :
    ∀ t : List Char, t.length ≤ 600 * fuel + 800 →
      ∃ hd tl, chunkTextGo fuel t = hd :: tl ∧
        hd.take 200 = t.take 200 ∧ hd.length = min t.length 800 := by
  intro t ht
  cases fuel with
  | zero =>
      exact ⟨t, [], rfl, rfl, by omega⟩
  | succ n =>
      by_cases h : t.length ≤ 800
      · exact ⟨t, [], by simp [chunkTextGo, h], rfl, by omega⟩
      · refine ⟨t.take 800, chunkTextGo n (t.drop 600), by simp [chunkTextGo, h], ?_, ?_⟩
        · simp [List.take_take]
        · simp [Nat.min_comm]

theorem chunkTextGo_chain (fuel : Nat) :
    ∀ t : List Char, t.length ≤ 600 * fuel + 800 →
      List.Chain' chunkOverlap (chunkTextGo fuel t) := by
  induction fuel with
  | zero =>
      intro t ht
      simp [chunkTextGo]
  | succ n ih =>
      intro t ht
      by_cases h : t.length ≤ 800
      · simp [chunkTextGo, h]
      · rw [chunkTextGo, if_neg h]
        obtain ⟨hd, tl, heq, htake, hlen⟩ :=
          chunkTextGo_head n (t.drop 600) (by simp; omega)
        rw [heq, List.chain'_cons]
        constructor
        · refine ⟨by simp; omega, ?_, ?_⟩
          · rw [hlen]; simp; omega
          · rw [htake, List.drop_take]
        · rw [← heq]
          exact ih (t.drop 600) (by simp; omega)

theorem chunkTextGo_join (fuel : Nat) :
    ∀ t : List Char, t.length ≤ 600 * fuel + 800 →
      ((chunkTextGo fuel t).map (List.drop 200)).flatten = t.drop 200 := by
  induction fuel with
  | zero =>
      intro t ht
      simp [chunkTextGo]
  | succ n ih =>
      intro t ht
      by_cases h : t.length ≤ 800
      · simp [chunkTextGo, h]
      · rw [chunkTextGo, if_neg h]
        rw [List.map_cons, List.flatten_cons, ih (t.drop 600) (by simp; omega)]
        rw [List.drop_take, List.drop_drop]
        have : (200 : Nat) + 600 = 800 := by omega
        rw [this]
        have h2 : t.drop 800 = (t.drop 200).drop 600 := by
          rw [List.drop_drop]
        rw [h2, show (800 : Nat) - 200 = 600 from rfl]
        exact List.take_append_drop 600 (t.drop 200)

theorem chunkText_budget (t : List Char) : t.length ≤ 600 * t.length + 800 := by
  omega

/-- C5: with the configured maximum chunk size of 800 characters and overlap
of 200, every chunk of a non-empty text has at most 800 characters, each pair
of consecutive chunks overlaps by the configured 200 characters, and
concatenating the chunks minus the overlaps reconstructs the original text. -/
theorem chunkText_spec (t : List Char) (hne : t ≠ []) :
    (∀ c ∈ chunkText t, c.length ≤ 800) ∧
    List.Chain' chunkOverlap (chunkText t) ∧
    reconstruct (chunkText t) = t := by
  refine ⟨chunkTextGo_mem_length t.length t (chunkText_budget t),
          chunkTextGo_chain t.length t (chunkText_budget t), ?_⟩
  by_cases h : t.length ≤ 800
  · have : chunkText t = [t] := by
      unfold chunkText
      cases hn : t.length with
      | zero => rfl
      | succ n => rw [chunkTextGo, if_pos h]
    rw [this]
    simp [reconstruct]
  · obtain ⟨n, hn⟩ : ∃ n, t.length = n + 1 := ⟨t.length - 1, by omega⟩
    have hstep : chunkText t = t.take 800 :: chunkTextGo n (t.drop 600) := by
      unfold chunkText
      rw [hn, chunkTextGo, if_neg h]
    rw [hstep]
    simp only [reconstruct]
    rw [chunkTextGo_join n (t.drop 600) (by simp; omega)]
    rw [List.drop_drop, show (600 : Nat) + 200 = 800 from rfl]
    exact List.take_append_drop 800 t

theorem chunkText_spec_witness :
    "hello".toList ≠ [] ∧ reconstruct (chunkText "hello".toList) = "hello".toList :=
  ⟨by decide, (chunkText_spec "hello".toList (by decide)).2.2⟩

theorem embedLoop_mono :
    ∀ (files : List UFile) (st : SysState) (c : Nat) (res : BatchResult)
      (st' : SysState), embedLoop files st c = (res, st') →
      (∀ x ∈ st.store, x ∈ st'.store) ∧ (∀ r ∈ st.registry, r ∈ st'.registry) := by
  intro files
  induction files with
  | nil =>
      intro st c res st' h
      rw [embedLoop] at h
      cases h
      exact ⟨fun x hx => hx, fun r hr => hr⟩
  | cons f rest ih =>
      intro st c res st' h
      rw [embedLoop] at h
      by_cases hra : f.raises
      · rw [if_pos hra] at h
        exact ih st c res st' h
      · rw [if_neg hra] at h
        by_cases hdup : dupCheck (extractedOf f).course_code (extractedOf f).filename st.registry = true
        · rw [if_pos hdup] at h
          cases h
          exact ⟨fun x hx => hx, fun r hr => hr⟩
        · rw [if_neg hdup] at h
          obtain ⟨hs, hr⟩ := ih (add_document (extractedOf f) st) (c + 1) res st' h
          refine ⟨fun x hx => hs x ?_, fun r hrm => hr r ?_⟩
          · exact List.mem_append_left _ hx
          · exact List.mem_append_left _ hrm

theorem embedLoop_count :
    ∀ (files : List UFile) (st : SysState) (c : Nat) (n : Nat) (st' : SysState),
      embedLoop files st c = (.ok n, st') →
      st'.registry.length + c = st.registry.length + n := by
  intro files
  induction files with
  | nil =>
      intro st c n st' h
      rw [embedLoop] at h
      cases h
      omega
  | cons f rest ih =>
      intro st c n st' h
      rw [embedLoop] at h
      by_cases hra : f.raises
      · rw [if_pos hra] at h
        exact ih st c n st' h
      · rw [if_neg hra] at h
        by_cases hdup : dupCheck (extractedOf f).course_code (extractedOf f).filename st.registry = true
        · rw [if_pos hdup] at h
          cases h
        · rw [if_neg hdup] at h
          have := ih (add_document (extractedOf f) st) (c + 1) n st' h
          simp only [add_document, List.length_append, List.length_singleton] at this
          omega

/-- C1: after a file has been ingested, a second request whose file carries
the same (course_code, document_name) pair is rejected as a duplicate: the
structured error is returned, the whole batch is short-circuited regardless of
the remaining files, and neither the vector index nor the registry is changed
by the second attempt. -/
theorem embed_file_duplicate_rejected (f g : UFile) (rest : List UFile)
    (st : SysState) (hg : g.raises = false)
    (he : parseFilename g.filename = parseFilename f.filename) :
    embed_file (g :: rest) (add_document (extractedOf f) st) =
      (BatchResult.dupError, add_document (extractedOf f) st) := by
  have hc : (extractedOf g).course_code = (extractedOf f).course_code := by
    simp [extractedOf, he]
  have hn : (extractedOf g).filename = (extractedOf f).filename := by
    simp [extractedOf, he]
  have hdup : dupCheck (extractedOf g).course_code (extractedOf g).filename
      (add_document (extractedOf f) st).registry = true := by
    simp [dupCheck, add_document, List.any_append, hc, hn]
  rw [embed_file, embedLoop, if_neg (by simp [hg]), if_pos hdup]

theorem embed_file_duplicate_rejected_witness :
    embed_file [⟨"COURSE01notes.pdf".toList, "abc".toList, [], false⟩]
        (add_document (extractedOf ⟨"COURSE01notes.pdf".toList, "abc".toList, [], false⟩)
          ⟨[], [], []⟩) =
      (BatchResult.dupError,
        add_document (extractedOf ⟨"COURSE01notes.pdf".toList, "abc".toList, [], false⟩)
          ⟨[], [], []⟩) :=
  embed_file_duplicate_rejected
    ⟨"COURSE01notes.pdf".toList, "abc".toList, [], false⟩
    ⟨"COURSE01notes.pdf".toList, "abc".toList, [], false⟩ [] ⟨[], [], []⟩ rfl rfl

/-- C6: within one batch, an exception while processing a file (modelled by
`raises`; duplicate detection aside) is caught: the file is skipped with no
effect on state or count and processing continues with the remaining files;
on normal completion the response's count is exactly the number of files that
completed ingestion (one new registry row per completed file). -/
theorem embed_file_exception_policy (files : List UFile) (st : SysState) :
    (∀ (f : UFile) (rest : List UFile) (c : Nat), f.raises = true →
      embedLoop (f :: rest) st c = embedLoop rest st c) ∧
    (∀ (n : Nat) (st' : SysState), embed_file files st = (.ok n, st') →
      st'.registry.length = st.registry.length + n) := by
  constructor
  · intro f rest c hf
    rw [embedLoop, if_pos hf]
  · intro n st' h
    have := embedLoop_count files st 0 n st' h
    omega

theorem embed_file_exception_policy_witness :
    embedLoop [⟨"COURSE01a.pdf".toList, "hi".toList, [], true⟩,
               ⟨"COURSE01b.pdf".toList, "hi".toList, [], false⟩] ⟨[], [], []⟩ 0 =
      embedLoop [⟨"COURSE01b.pdf".toList, "hi".toList, [], false⟩] ⟨[], [], []⟩ 0 ∧
    (embed_file [⟨"COURSE01a.pdf".toList, "hi".toList, [], true⟩,
                 ⟨"COURSE01b.pdf".toList, "hi".toList, [], false⟩]
        ⟨[], [], []⟩).2.registry.length = (SysState.mk [] [] []).registry.length + 1 :=
  ⟨(embed_file_exception_policy
      [⟨"COURSE01a.pdf".toList, "hi".toList, [], true⟩,
       ⟨"COURSE01b.pdf".toList, "hi".toList, [], false⟩] ⟨[], [], []⟩).1
      ⟨"COURSE01a.pdf".toList, "hi".toList, [], true⟩
      [⟨"COURSE01b.pdf".toList, "hi".toList, [], false⟩] 0 rfl,
   (embed_file_exception_policy
      [⟨"COURSE01a.pdf".toList, "hi".toList, [], true⟩,
       ⟨"COURSE01b.pdf".toList, "hi".toList, [], false⟩] ⟨[], [], []⟩).2 1
      (embed_file [⟨"COURSE01a.pdf".toList, "hi".toList, [], true⟩,
                   ⟨"COURSE01b.pdf".toList, "hi".toList, [], false⟩] ⟨[], [], []⟩).2
      (by decide)⟩

/-- C10: when a later file of a batch is detected as a duplicate and the batch
aborts, a file ingested successfully earlier in the same batch stays fully
ingested — all its chunk entries are in the aborted response's vector store
and its registry row is present — even though the `dupError` response carries
no success count for it. -/
theorem embed_file_abort_preserves_earlier (f : UFile) (rest : List UFile)
    (st : SysState) (c : Nat) (st' : SysState)
    (hra : f.raises = false)
    (hdup : dupCheck (extractedOf f).course_code (extractedOf f).filename
      st.registry = false)
    (h : embedLoop (f :: rest) st c = (BatchResult.dupError, st')) :
    (∀ e ∈ chunkEntries (extractedOf f), e ∈ st'.store) ∧
    (⟨(extractedOf f).course_code, (extractedOf f).filename⟩ : DocRecord) ∈
      st'.registry := by
  rw [embedLoop, if_neg (by simp [hra]), if_neg (by simp [hdup])] at h
  obtain ⟨hs, hr⟩ :=
    embedLoop_mono rest (add_document (extractedOf f) st) (c + 1) _ st' h
  constructor
  · intro e he
    exact hs e (List.mem_append_right _ he)
  · exact hr _ (List.mem_append_right _ (List.mem_singleton.mpr rfl))

theorem embed_file_abort_preserves_earlier_witness :
    (⟨(extractedOf ⟨"COURSE01a.pdf".toList, "hi".toList, [], false⟩).course_code,
      (extractedOf ⟨"COURSE01a.pdf".toList, "hi".toList, [], false⟩).filename⟩ : DocRecord) ∈
      (embedLoop [⟨"COURSE01a.pdf".toList, "hi".toList, [], false⟩,
                  ⟨"COURSE01a.pdf".toList, "hi".toList, [], false⟩] ⟨[], [], []⟩ 0).2.registry :=
  (embed_file_abort_preserves_earlier
    ⟨"COURSE01a.pdf".toList, "hi".toList, [], false⟩
    [⟨"COURSE01a.pdf".toList, "hi".toList, [], false⟩] ⟨[], [], []⟩ 0
    (embedLoop [⟨"COURSE01a.pdf".toList, "hi".toList, [], false⟩,
                ⟨"COURSE01a.pdf".toList, "hi".toList, [], false⟩] ⟨[], [], []⟩ 0).2
    rfl (by decide) (by decide)).2

theorem nearestEntry_cons (d : VsEntry → ℚ) (e : VsEntry) (rest : List VsEntry) :
    ∃ x, nearestEntry d (e :: rest) = some x := by
  rw [nearestEntry]
  cases h : nearestEntry d rest with
  | none => exact ⟨e, rfl⟩
  | some b =>
      by_cases hle : d e ≤ d b
      · exact ⟨e, by simp [hle]⟩
      · exact ⟨b, by simp [hle]⟩

theorem nearestEntry_none_iff (d : VsEntry → ℚ) (l : List VsEntry) :
    nearestEntry d l = none ↔ l = [] := by
  cases l with
  | nil => simp [nearestEntry]
  | cons e rest =>
      obtain ⟨x, hx⟩ := nearestEntry_cons d e rest
      simp [hx]

theorem nearestEntry_mem (d : VsEntry → ℚ) :
    ∀ (l : List VsEntry) (e : VsEntry), nearestEntry d l = some e → e ∈ l := by
  intro l
  induction l with
  | nil => intro e h; simp [nearestEntry] at h
  | cons a rest ih =>
      intro e h
      rw [nearestEntry] at h
      cases hn : nearestEntry d rest with
      | none =>
          rw [hn] at h
          simp at h
          subst h
          exact List.mem_cons_self _ _
      | some b =>
          rw [hn] at h
          by_cases hle : d a ≤ d b
          · simp [hle] at h
            subst h
            exact List.mem_cons_self _ _
          · simp [hle] at h
            subst h
            exact List.mem_cons_of_mem a (ih b hn)

theorem nearestEntry_min (d : VsEntry → ℚ) :
    ∀ (l : List VsEntry) (e : VsEntry), nearestEntry d l = some e →
      ∀ x ∈ l, d e ≤ d x := by
  intro l
  induction l with
  | nil => intro e h; simp [nearestEntry] at h
  | cons a rest ih =>
      intro e h x hx
      rw [nearestEntry] at h
      cases hn : nearestEntry d rest with
      | none =>
          rw [hn] at h
          simp at h
          subst h
          have hnil : rest = [] := (nearestEntry_none_iff d rest).mp hn
          subst hnil
          simp at hx
          subst hx
          exact le_refl _
      | some b =>
          rw [hn] at h
          rcases List.mem_cons.mp hx with rfl | hxr
          · by_cases hle : d x ≤ d b
            · simp [hle] at h
              subst h
              exact le_refl _
            · simp [hle] at h
              subst h
              exact le_of_not_le hle
          · by_cases hle : d a ≤ d b
            · simp [hle] at h
              subst h
              exact le_trans hle (ih b hn x hxr)
            · simp [hle] at h
              subst h
              exact ih b hn x hxr

/-- C2: `query` asks for the single nearest entry within the course scope
(`n_results=1` and the `where` filter): when the scope is non-empty the top
result is a scoped entry of minimal distance, and the returned value is
`(chunk text, source filename)` exactly when that distance is strictly below
the `1.0` confidence threshold; in every other case — the empty scope included
— the total function returns the no-match signal `("", "")`, never an
error. -/
theorem query_spec (d : List Char → VsEntry → ℚ) (message course_id : List Char)
    (store : List VsEntry) :
    (scopeEntries course_id store = [] → query d message course_id store = ([], [])) ∧
    (∀ e, nearestEntry (d message) (scopeEntries course_id store) = some e →
      e ∈ scopeEntries course_id store ∧
      (∀ x ∈ scopeEntries course_id store, d message e ≤ d message x) ∧
      (d message e < 1 → query d message course_id store = (e.text, e.source)) ∧
      (¬ d message e < 1 → query d message course_id store = ([], []))) ∧
    (scopeEntries course_id store ≠ [] →
      ∃ e, nearestEntry (d message) (scopeEntries course_id store) = some e) := by
  refine ⟨?_, ?_, ?_⟩
  · intro h
    rw [query, (nearestEntry_none_iff _ _).mpr h]
  · intro e he
    refine ⟨nearestEntry_mem _ _ _ he, nearestEntry_min _ _ _ he, ?_, ?_⟩
    · intro hlt
      rw [query, he]
      simp [hlt]
    · intro hge
      rw [query, he]
      simp [hge]
  · intro h
    cases hn : nearestEntry (d message) (scopeEntries course_id store) with
    | none => exact absurd ((nearestEntry_none_iff _ _).mp hn) h
    | some e => exact ⟨e, rfl⟩

theorem query_spec_witness :
    query (fun _ _ => (0 : ℚ)) "hello".toList "CSCI101L".toList [] = ([], []) ∧
    query (fun _ _ => (0 : ℚ)) "hello".toList "CSCI101L".toList
        [⟨"txt".toList, "src".toList, "CSCI101L".toList, "id0".toList⟩] =
      ("txt".toList, "src".toList) :=
  ⟨(query_spec (fun _ _ => (0 : ℚ)) "hello".toList "CSCI101L".toList []).1 rfl,
   ((query_spec (fun _ _ => (0 : ℚ)) "hello".toList "CSCI101L".toList
        [⟨"txt".toList, "src".toList, "CSCI101L".toList, "id0".toList⟩]).2.1
      ⟨"txt".toList, "src".toList, "CSCI101L".toList, "id0".toList⟩
      (by decide)).2.2.1 (by decide)⟩

theorem delete_document_registry_eq (course filename : List Char) (st : SysState) :
    (delete_document course filename st).2.registry =
      st.registry.filter fun r => !(r.document_name == filename) := by
  simp only [delete_document]
  split_ifs <;> rfl

theorem delete_document_store_eq (course filename : List Char) (st : SysState) :
    (delete_document course filename st).2.store =
      delete_document_from_vectorstore filename st.store := by
  simp only [delete_document]
  split_ifs <;> rfl

/-- C7: `delete_document` attempts the registry deletion (by filename), the
vector-store deletion (by source filename) and the disk-file removal in
sequence; the registry and vector-store deletions hold in the final state even
when the disk removal fails (the path being absent), i.e. they are never
rolled back, and the returned value is only the literal string `"success"` or
`"failed"`, never per-step status. -/
theorem delete_document_spec (course filename : List Char) (st : SysState) :
    ((delete_document course filename st).1 = "success" ∨
      (delete_document course filename st).1 = "failed") ∧
    (delete_document course filename st).2.registry =
      st.registry.filter (fun r => !(r.document_name == filename)) ∧
    (delete_document course filename st).2.store =
      delete_document_from_vectorstore filename st.store ∧
    ((course, filename) ∉ st.disk →
      (delete_document course filename st).1 = "failed" ∧
      (delete_document course filename st).2.disk = st.disk) ∧
    ((course, filename) ∈ st.disk →
      (delete_document course filename st).1 = "success") := by
  by_cases hd : (course, filename) ∈ st.disk
  · refine ⟨Or.inl ?_, delete_document_registry_eq course filename st,
      delete_document_store_eq course filename st, ?_, ?_⟩
    · simp [delete_document, hd]
    · intro h; exact absurd hd h
    · intro _; simp [delete_document, hd]
  · refine ⟨Or.inr ?_, delete_document_registry_eq course filename st,
      delete_document_store_eq course filename st, ?_, ?_⟩
    · simp [delete_document, hd]
    · intro _
      exact ⟨by simp [delete_document, hd], by simp [delete_document, hd]⟩
    · intro h; exact absurd h hd

theorem delete_document_spec_witness :
    (delete_document "CSCI101L".toList "notes.pdf".toList
      ⟨[⟨"CSCI101L".toList, "notes.pdf".toList⟩],
       [⟨"txt".toList, "notes.pdf".toList, "CSCI101L".toList, "id0".toList⟩],
       []⟩).1 = "failed" ∧
    (delete_document "CSCI101L".toList "notes.pdf".toList
      ⟨[⟨"CSCI101L".toList, "notes.pdf".toList⟩],
       [⟨"txt".toList, "notes.pdf".toList, "CSCI101L".toList, "id0".toList⟩],
       []⟩).2.disk = [] :=
  (delete_document_spec "CSCI101L".toList "notes.pdf".toList
      ⟨[⟨"CSCI101L".toList, "notes.pdf".toList⟩],
       [⟨"txt".toList, "notes.pdf".toList, "CSCI101L".toList, "id0".toList⟩],
       []⟩).2.2.2.1 (by decide)

/-- C9: both the registry deletion and the vector-store deletion of
`delete_document` filter only on the filename: records and entries with the
same filename under any other course are deleted as well, and the deleted
registry/store contents do not depend on the `course_code` argument at all —
it only selects which disk path is removed. -/
theorem delete_document_ignores_course (ca cb filename : List Char) (st : SysState) :
    (delete_document ca filename st).2.registry =
      (delete_document cb filename st).2.registry ∧
    (delete_document ca filename st).2.store =
      (delete_document cb filename st).2.store ∧
    (∀ r ∈ st.registry, r.document_name = filename →
      r ∉ (delete_document ca filename st).2.registry) ∧
    (∀ e ∈ st.store, e.source = filename →
      e ∉ (delete_document ca filename st).2.store) := by
  refine ⟨?_, ?_, ?_, ?_⟩
  · rw [delete_document_registry_eq, delete_document_registry_eq]
  · rw [delete_document_store_eq, delete_document_store_eq]
  · intro r hr hname
    rw [delete_document_registry_eq]
    simp [List.mem_filter, hname]
  · intro e he hsrc
    rw [delete_document_store_eq]
    simp [delete_document_from_vectorstore, List.mem_filter, hsrc]

theorem delete_document_ignores_course_witness :
    (⟨"AAAA0001".toList, "notes.pdf".toList⟩ : DocRecord) ∉
      (delete_document "BBBB0002".toList "notes.pdf".toList
        ⟨[⟨"AAAA0001".toList, "notes.pdf".toList⟩], [], []⟩).2.registry :=
  (delete_document_ignores_course "BBBB0002".toList "CCCC0003".toList
      "notes.pdf".toList
      ⟨[⟨"AAAA0001".toList, "notes.pdf".toList⟩], [], []⟩).2.2.1
    ⟨"AAAA0001".toList, "notes.pdf".toList⟩ (by decide) rfl

theorem lastN_append (n : Nat) (s suf : List Char) (h : suf.length = n) :
    lastN n (s ++ suf) = suf := by
  rw [lastN, List.length_append, h]
  have h2 : s.length + n - n = s.length := by omega
  rw [h2, List.drop_left]

/-- C8: extraction is dispatched on the file extension: a filename ending in
`".pdf"` goes to the PDF extractor, one ending in `".pptx"` goes to the PPTX
extractor, and any other filename yields the empty placeholder content rather
than a failure. -/
theorem extractContent_dispatch (f : UFile) :
    (∀ pre, f.filename = pre ++ ".pdf".toList → extractContent f = f.pdfText) ∧
    (∀ pre, f.filename = pre ++ ".pptx".toList → extractContent f = f.pptxText) ∧
    ((¬ ∃ pre, f.filename = pre ++ ".pdf".toList) →
      (¬ ∃ pre, f.filename = pre ++ ".pptx".toList) → extractContent f = []) := by
  refine ⟨?_, ?_, ?_⟩
  · intro pre hp
    rw [extractContent, if_pos]
    rw [hp]
    exact lastN_append 4 pre ".pdf".toList rfl
  · intro pre hp
    have h5 : f.filename = (pre ++ ['.']) ++ "pptx".toList := by
      rw [hp, List.append_assoc]
      rfl
    have hc1 : ¬ lastN 4 f.filename = ".pdf".toList := by
      intro hc
      rw [h5, lastN_append 4 (pre ++ ['.']) "pptx".toList rfl] at hc
      exact absurd hc (by decide)
    rw [extractContent, if_neg hc1, if_pos]
    rw [hp]
    exact lastN_append 5 pre ".pptx".toList rfl
  · intro h1 h2
    have hc1 : ¬ lastN 4 f.filename = ".pdf".toList := by
      intro hc
      refine h1 ⟨f.filename.take (f.filename.length - 4), ?_⟩
      rw [← hc]
      simp only [lastN]
      exact (List.take_append_drop _ _).symm
    have hc2 : ¬ lastN 5 f.filename = ".pptx".toList := by
      intro hc
      refine h2 ⟨f.filename.take (f.filename.length - 5), ?_⟩
      rw [← hc]
      simp only [lastN]
      exact (List.take_append_drop _ _).symm
    rw [extractContent, if_neg hc1, if_neg hc2]

theorem extractContent_dispatch_witness :
    extractContent ⟨"notes.pdf".toList, "PDFTEXT".toList, "PPTXTEXT".toList, false⟩ =
      "PDFTEXT".toList :=
  (extractContent_dispatch
      ⟨"notes.pdf".toList, "PDFTEXT".toList, "PPTXTEXT".toList, false⟩).1
    "notes".toList (by decide)

/-- C4 (counterexample): uploading `"CSCI101LectureNotes.pdf"` does NOT yield
course code `"CSCI101"` with document name `"LectureNotes.pdf"`: the course
prefix is seven characters long while the code slices a fixed eight. -/
theorem parseFilename_csci101_ne :
    parseFilename "CSCI101LectureNotes.pdf".toList ≠
      ("CSCI101".toList, "LectureNotes.pdf".toList) := by
  decide

/-- C4 (amended): uploading `"CSCI101LectureNotes.pdf"` yields course code
`"CSCI101L"` (the first eight characters) and document name
`"ectureNotes.pdf"` (the remainder). -/
theorem parseFilename_csci101 :
    parseFilename "CSCI101LectureNotes.pdf".toList =
      ("CSCI101L".toList, "ectureNotes.pdf".toList) := by
  decide

end TeachGPT
